import Mathlib

/-!
Verification of the stocks-near-ma repository against its specification.

The frontend filter and API modules are embedded shallowly: JavaScript
strings become lists of characters, arrays become Lean lists, numbers
become rationals, and a nullable value becomes an `Option`.  The data
pipeline (MA calculator) is not shipped in the repository, so it is
modelled from the specification where a claim needs it.
-/

/-- A JavaScript string, modelled as a list of characters. -/
abbrev JSString := List Char

/-- Whitespace test used by the JavaScript trim method (ASCII subset). -/
def jsIsWhitespace (c : Char) : Bool :=
  c == ' ' || c == '\t' || c == '\n' || c == '\r'

/-- Model of the JavaScript trim method: drop leading and trailing whitespace. -/
def jsTrim (s : JSString) : JSString :=
  ((s.dropWhile jsIsWhitespace).reverse.dropWhile jsIsWhitespace).reverse

/-- Model of the JavaScript toUpperCase method on ASCII strings. -/
def jsToUpper (s : JSString) : JSString :=
  s.map Char.toUpper

/-- Tests whether the second list is a leading segment of the first. -/
def leadsWith : JSString → JSString → Bool
  | _, [] => true
  | [], _ :: _ => false
  | a :: as, b :: bs => a == b && leadsWith as bs

/-- Model of the JavaScript includes method: substring containment. -/
def jsIncludes : JSString → JSString → Bool
  | [], ndl => ndl.isEmpty
  | h :: t, ndl => leadsWith (h :: t) ndl || jsIncludes t ndl

/-- Model of the JavaScript split method on a comma separator. -/
def splitComma : JSString → List JSString
  | [] => [[]]
  | c :: cs =>
    match splitComma cs with
    | [] => [[c]]
    | t :: ts => if c == ',' then [] :: t :: ts else (c :: t) :: ts

/-- Model of the JavaScript join method with a comma separator. -/
def joinComma : List JSString → JSString
  | [] => []
  | [t] => t
  | t :: u :: ts => t ++ ',' :: joinComma (u :: ts)

/-- Truthiness of a nullable JavaScript string: non-null and non-empty. -/
def jsTruthyStr : Option JSString → Bool
  | none => false
  | some s => !s.isEmpty

/-- A stock record as published in the JSON store and consumed by the
frontend (only the fields the filter module reads). -/
structure Stock where
  symbol : JSString
  distance_abs : ℚ
  direction : JSString
  near_ma : Bool
deriving Repr, DecidableEq

/-- The direction string ABOVE. -/
def dirABOVE : JSString := "ABOVE".toList

/-- The direction string BELOW. -/
def dirBELOW : JSString := "BELOW".toList

/-- The direction-filter wildcard string All. -/
def dirAll : JSString := "All".toList

/-- The statistics object returned by calculateStatistics. -/
structure Statistics where
  total : Nat
  nearMA : Nat
  above : Nat
  below : Nat
deriving Repr, DecidableEq

/-- Filter settings as assembled by getFilterSettings: search text,
near-MA checkbox, direction selector and threshold slider value
(absent in the variant without a slider). -/
structure FilterSettings where
  search : Option JSString
  nearMA : Bool
  direction : JSString
  threshold : Option ℚ
deriving Repr, DecidableEq

/-- searchStocks from filters.js (identical in both shipped variants):
a null, empty or whitespace-only query returns the input unchanged,
otherwise keep the stocks whose upper-cased symbol contains the
trimmed upper-cased query. -/
def searchStocks (stocks : List Stock) (query : Option JSString) : List Stock :=
  match query with
  | none => stocks
  | some q =>
    if jsTrim q = [] then stocks
    else
      let searchTerm := jsToUpper (jsTrim q)
      stocks.filter (fun s => jsIncludes (jsToUpper s.symbol) searchTerm)

/-- filterDirection from filters.js (identical in both shipped variants). -/
def filterDirection (stocks : List Stock) (direction : JSString) : List Stock :=
  if direction = dirAll then stocks
  else stocks.filter (fun s => s.direction == direction)

/-- parseCustomTickers from filters.js: the normalized entry list before
joining — split on commas, trim and upper-case each entry, drop the
empty ones. -/
def tickerEntries (input : JSString) : List JSString :=
  ((splitComma input).map (fun t => jsToUpper (jsTrim t))).filter
    (fun t => decide (t.length > 0))

/-- parseCustomTickers from filters.js (identical in both shipped
variants): null on an empty or whitespace-only input, otherwise the
cleaned comma-joined entries, or null when no entry survives. -/
def parseCustomTickers (input : JSString) : Option JSString :=
  if jsTrim input = [] then none
  else
    let tickers := tickerEntries input
    if tickers.length > 0 then some (joinComma tickers) else none

namespace ThresholdVariant

/-- filterNearMA from the threshold variant of filters.js: keep stocks
with distance_abs at most the threshold (slider value, default 5). -/
def filterNearMA (stocks : List Stock) (threshold : ℚ := 5) : List Stock :=
  stocks.filter (fun s => decide (s.distance_abs ≤ threshold))

/-- calculateStatistics from the threshold variant of filters.js. -/
def calculateStatistics (stocks : List Stock) (threshold : ℚ := 5) : Statistics where
  total := stocks.length
  nearMA := (stocks.filter (fun s => decide (s.distance_abs ≤ threshold))).length
  above := (stocks.filter (fun s => s.direction == dirABOVE)).length
  below := (stocks.filter (fun s => s.direction == dirBELOW)).length

/-- The JavaScript expression filters.threshold or-else 5: a missing or
zero (falsy) slider value falls back to 5. -/
def thresholdOrFive : Option ℚ → ℚ
  | none => 5
  | some t => if t = 0 then 5 else t

/-- applyFilters from the threshold variant of filters.js. -/
def applyFilters (stocks : List Stock) (filters : FilterSettings) : List Stock :=
  let filtered := stocks
  let filtered := if jsTruthyStr filters.search then searchStocks filtered filters.search
                  else filtered
  let filtered := if filters.nearMA then filterNearMA filtered (thresholdOrFive filters.threshold)
                  else filtered
  let filtered := if filters.direction ≠ dirAll then filterDirection filtered filters.direction
                  else filtered
  filtered

end ThresholdVariant

namespace BoolVariant

/-- filterNearMA from frontend/js/filters.js: keep stocks whose near_ma
flag is true. -/
def filterNearMA (stocks : List Stock) : List Stock :=
  stocks.filter (fun s => s.near_ma == true)

/-- calculateStatistics from frontend/js/filters.js. -/
def calculateStatistics (stocks : List Stock) : Statistics where
  total := stocks.length
  nearMA := (stocks.filter (fun s => s.near_ma)).length
  above := (stocks.filter (fun s => s.direction == dirABOVE)).length
  below := (stocks.filter (fun s => s.direction == dirBELOW)).length

/-- applyFilters from frontend/js/filters.js. -/
def applyFilters (stocks : List Stock) (filters : FilterSettings) : List Stock :=
  let filtered := stocks
  let filtered := if jsTruthyStr filters.search then searchStocks filtered filters.search
                  else filtered
  let filtered := if filters.nearMA then filterNearMA filtered else filtered
  let filtered := if filters.direction ≠ dirAll then filterDirection filtered filters.direction
                  else filtered
  filtered

end BoolVariant

/-- Outcome of one fetch-and-parse attempt inside fetchWithRetry: either
the parsed JSON body or the thrown error (a network throw or a non-ok
HTTP status both land in the catch block). -/
abbrev AttemptOutcome (ε α : Type) := Except ε α

/-- Result of a fetchWithRetry call: the value returned or error thrown
(none when the loop body never ran, i.e. zero retries were allowed),
the number of fetch attempts made, and the list of backoff delays in
milliseconds waited between consecutive attempts. -/
structure RetryResult (ε α : Type) where
  res : Option (Except ε α)
  attempts : Nat
  delays : List Nat

/-- The loop of fetchWithRetry from frontend/js/api.js, with i the
current attempt index and m the number of loop iterations left
(m = retries - i).  On success return the body; on failure at the last
allowed attempt rethrow the error, otherwise wait 1000 * 2 ^ i
milliseconds and continue. -/
def retryGo (fetchAt : Nat → AttemptOutcome ε α) : Nat → Nat → RetryResult ε α
  | _, 0 => ⟨none, 0, []⟩
  | i, m + 1 =>
    match fetchAt i with
    | .ok a => ⟨some (.ok a), 1, []⟩
    | .error e =>
      if m = 0 then ⟨some (.error e), 1, []⟩
      else
        let r := retryGo fetchAt (i + 1) m
        ⟨r.res, r.attempts + 1, (1000 * 2 ^ i) :: r.delays⟩

/-- fetchWithRetry from frontend/js/api.js: run the attempt loop from
attempt index 0 with the given retry bound (default 3 in the source). -/
def fetchWithRetry (fetchAt : Nat → AttemptOutcome ε α) (retries : Nat := 3) :
    RetryResult ε α :=
  retryGo fetchAt 0 retries

/-- The metadata object of the raw JSONBin record, every field optional
(absent fields model undefined). -/
structure RawMetadata where
  total_count : Option Nat
  processing_time : Option ℚ
  last_updated : Option JSString
deriving Repr, DecidableEq

/-- The metadata object with no fields set. -/
def emptyMetadata : RawMetadata := ⟨none, none, none⟩

/-- The record property of a parsed JSONBin response body; both fields
may be absent. -/
structure RawRecord where
  stocks : Option (List Stock)
  metadata : Option RawMetadata
deriving Repr, DecidableEq

/-- An HTTP response from the JSON store, as far as fetchStocks reads
it: the ok flag, the numeric status, and the parsed body record. -/
structure StoreResponse where
  ok : Bool
  status : Nat
  record : RawRecord
deriving Repr, DecidableEq

/-- The object fetchStocks from the JSONBin api.js returns on success. -/
structure FetchResult where
  stocks : List Stock
  metadata : RawMetadata
  total_count : Nat
  processing_time : ℚ
  last_updated : Option JSString
  cache_hit : Bool
deriving Repr, DecidableEq

/-- The JavaScript expression s or-else null on a nullable string: an
absent or empty (falsy) string becomes null. -/
def strOrNull : Option JSString → Option JSString
  | none => none
  | some s => if s = [] then none else some s

/-- fetchStocks from the JSONBin variant of api.js: throw on a non-ok
HTTP status, otherwise total the record with defaults — empty stock
list, empty metadata object, zero counts and times, null timestamp —
and a constant cache_hit flag. -/
def fetchStocks (resp : StoreResponse) : Except Nat FetchResult :=
  if resp.ok = false then .error resp.status
  else .ok {
    stocks := resp.record.stocks.getD []
    metadata := resp.record.metadata.getD emptyMetadata
    total_count := ((resp.record.metadata.bind (fun m => m.total_count)).getD 0)
    processing_time := ((resp.record.metadata.bind (fun m => m.processing_time)).getD 0)
    last_updated := strOrNull (resp.record.metadata.bind (fun m => m.last_updated))
    cache_hit := true }

/-- Direction of a stock metric relative to its moving average. -/
inductive Direction where
  | above
  | below
deriving Repr, DecidableEq

/-- Typed failure of the MA calculator. -/
inductive MetricFailure where
  | insufficientHistory
deriving Repr, DecidableEq

/-- The durable per-ticker result of the data pipeline (StockMetric of
the specification, section 3). -/
structure StockMetric where
  symbol : JSString
  price : ℚ
  movingAverage150 : ℚ
  distancePercent : ℚ
  distanceAbs : ℚ
  direction : Direction
deriving Repr, DecidableEq

/-- Modelled from the spec: the MA Calculator computeMetric (sections
3 and 4.3), whose pipeline source is not shipped in the repository.
A PriceSeries is taken as its chronological list of closing prices.
Fails with InsufficientHistory when fewer than 150 closes are present;
otherwise the moving average is the arithmetic mean of the last 150
closes, price is the final close, distancePercent is
(price - ma) / ma * 100, distanceAbs its absolute value, and direction
is ABOVE when price is at or above the moving average, else BELOW. -/
def computeMetric (symbol : JSString) (closes : List ℚ) :
    Except MetricFailure StockMetric :=
  if closes.length < 150 then .error .insufficientHistory
  else
    let window := closes.drop (closes.length - 150)
    let movingAverage150 := window.sum / 150
    let price := closes.getLastD 0
    let distancePercent := (price - movingAverage150) / movingAverage150 * 100
    .ok { symbol := symbol
          price := price
          movingAverage150 := movingAverage150
          distancePercent := distancePercent
          distanceAbs := |distancePercent|
          direction := if movingAverage150 ≤ price then .above else .below }

/-- A demonstration stock carrying a given absolute distance. -/
def demoStock (d : ℚ) : Stock :=
  { symbol := "X".toList, distance_abs := d, direction := dirABOVE, near_ma := false }

/-- The distance scenario of the specification: distanceAbs values
1, 4.9, 5.0, 5.1 and 20. -/
def demoStocks : List Stock :=
  [demoStock 1, demoStock (mkRat 49 10), demoStock 5, demoStock (mkRat 51 10), demoStock 20]

/-- A demonstration stock with symbol AAPL, direction ABOVE. -/
def demoAAPL : Stock :=
  { symbol := "AAPL".toList, distance_abs := 1, direction := dirABOVE, near_ma := true }

/-- A demonstration stock with symbol MSFT, direction BELOW. -/
def demoMSFT : Stock :=
  { symbol := "MSFT".toList, distance_abs := 9, direction := dirBELOW, near_ma := false }

/-- A two-stock list with distinct symbols and both directions. -/
def demoPair : List Stock := [demoAAPL, demoMSFT]

/-- In a list whose stocks all carry direction ABOVE or BELOW, the
ABOVE-filtered and BELOW-filtered sublists partition the list. -/
theorem length_filter_above_add_below (stocks : List Stock)
    (hdir : ∀ s ∈ stocks, s.direction = dirABOVE ∨ s.direction = dirBELOW) :
    (stocks.filter (fun s => s.direction == dirABOVE)).length
      + (stocks.filter (fun s => s.direction == dirBELOW)).length = stocks.length := by
  have h2 : stocks.filter (fun s => !(s.direction == dirABOVE))
      = stocks.filter (fun s => s.direction == dirBELOW) := by
    apply List.filter_congr
    intro s hs
    rcases hdir s hs with h | h <;> rw [h] <;> decide
  rw [← h2]
  exact (List.length_eq_length_filter_add (fun s : Stock => s.direction == dirABOVE)).symm

/-- C1: the near-MA test is inclusive at the threshold.  Membership in
filterNearMA is exactly absolute distance at most the threshold, the
nearMA statistic counts exactly the stocks filterNearMA keeps, and on
distanceAbs values 1, 4.9, 5.0, 5.1, 20 with threshold 5 the count is 3
(5.0 is included). -/
theorem near_ma_inclusive_at_threshold :
    (∀ (stocks : List Stock) (t : ℚ) (s : Stock),
        s ∈ ThresholdVariant.filterNearMA stocks t ↔ s ∈ stocks ∧ s.distance_abs ≤ t)
    ∧ (∀ (stocks : List Stock) (t : ℚ),
        (ThresholdVariant.calculateStatistics stocks t).nearMA
          = (ThresholdVariant.filterNearMA stocks t).length)
    ∧ (ThresholdVariant.calculateStatistics demoStocks 5).nearMA = 3
    ∧ (ThresholdVariant.filterNearMA demoStocks 5).length = 3 := by
  refine ⟨?_, fun stocks t => rfl, by decide, by decide⟩
  intro stocks t s
  simp [ThresholdVariant.filterNearMA, List.mem_filter]

/-- C2: count consistency of the statistics aggregation, in both
shipped variants of calculateStatistics: when every stock carries
direction ABOVE or BELOW and symbols do not repeat, above plus below
equals total equals the length of the list, and all four counts are
non-negative. -/
theorem stats_count_consistency (stocks : List Stock) (t : ℚ)
    (hdir : ∀ s ∈ stocks, s.direction = dirABOVE ∨ s.direction = dirBELOW)
    (hnodup : (stocks.map Stock.symbol).Nodup) :
    ((ThresholdVariant.calculateStatistics stocks t).above
        + (ThresholdVariant.calculateStatistics stocks t).below
      = (ThresholdVariant.calculateStatistics stocks t).total
    ∧ (ThresholdVariant.calculateStatistics stocks t).total = stocks.length)
    ∧ ((BoolVariant.calculateStatistics stocks).above
        + (BoolVariant.calculateStatistics stocks).below
      = (BoolVariant.calculateStatistics stocks).total
    ∧ (BoolVariant.calculateStatistics stocks).total = stocks.length)
    ∧ (0 ≤ (ThresholdVariant.calculateStatistics stocks t).total
    ∧ 0 ≤ (ThresholdVariant.calculateStatistics stocks t).nearMA
    ∧ 0 ≤ (ThresholdVariant.calculateStatistics stocks t).above
    ∧ 0 ≤ (ThresholdVariant.calculateStatistics stocks t).below) := by
  refine ⟨⟨?_, rfl⟩, ⟨?_, rfl⟩, Nat.zero_le _, Nat.zero_le _, Nat.zero_le _, Nat.zero_le _⟩
  · exact length_filter_above_add_below stocks hdir
  · exact length_filter_above_add_below stocks hdir

/-- C2 witness: the invariant evaluated on a concrete two-stock list
with distinct symbols and one stock in each direction. -/
theorem stats_count_consistency_witness :
    ((∀ s ∈ demoPair, s.direction = dirABOVE ∨ s.direction = dirBELOW)
      ∧ (demoPair.map Stock.symbol).Nodup)
    ∧ (ThresholdVariant.calculateStatistics demoPair 5).above
        + (ThresholdVariant.calculateStatistics demoPair 5).below
      = (ThresholdVariant.calculateStatistics demoPair 5).total
    ∧ (BoolVariant.calculateStatistics demoPair).above
        + (BoolVariant.calculateStatistics demoPair).below
      = (BoolVariant.calculateStatistics demoPair).total :=
  ⟨⟨by decide, by decide⟩,
   (stats_count_consistency demoPair 5 (by decide) (by decide)).1.1,
   (stats_count_consistency demoPair 5 (by decide) (by decide)).2.1.1⟩

/-- C3: statistics aggregation is order-independent in both shipped
variants: a permutation of the stock list yields identical statistics. -/
theorem stats_order_independent (stocks stocks' : List Stock) (t : ℚ)
    (hperm : stocks.Perm stocks') :
    ThresholdVariant.calculateStatistics stocks t
      = ThresholdVariant.calculateStatistics stocks' t
    ∧ BoolVariant.calculateStatistics stocks = BoolVariant.calculateStatistics stocks' := by
  constructor
  · simp only [ThresholdVariant.calculateStatistics, Statistics.mk.injEq]
    exact ⟨hperm.length_eq, (hperm.filter _).length_eq, (hperm.filter _).length_eq,
      (hperm.filter _).length_eq⟩
  · simp only [BoolVariant.calculateStatistics, Statistics.mk.injEq]
    exact ⟨hperm.length_eq, (hperm.filter _).length_eq, (hperm.filter _).length_eq,
      (hperm.filter _).length_eq⟩

/-- C3 witness: the statistics of a concrete list and its reversal. -/
theorem stats_order_independent_witness :
    demoPair.Perm demoPair.reverse
    ∧ ThresholdVariant.calculateStatistics demoPair 5
        = ThresholdVariant.calculateStatistics demoPair.reverse 5
    ∧ BoolVariant.calculateStatistics demoPair
        = BoolVariant.calculateStatistics demoPair.reverse :=
  ⟨by decide, (stats_order_independent demoPair demoPair.reverse 5 (by decide)).1,
   (stats_order_independent demoPair demoPair.reverse 5 (by decide)).2⟩

/-- A conditional filtering step keeps a sublist of its input. -/
theorem ite_step_sublist (c : Prop) [Decidable c] (g : List Stock → List Stock)
    (l : List Stock) (hg : ∀ x, (g x).Sublist x) : (if c then g l else l).Sublist l := by
  split
  · exact hg l
  · exact List.Sublist.refl l

/-- searchStocks returns a sublist of its input. -/
theorem searchStocks_sublist (stocks : List Stock) (query : Option JSString) :
    (searchStocks stocks query).Sublist stocks := by
  unfold searchStocks
  cases query with
  | none => exact List.Sublist.refl stocks
  | some q =>
    dsimp only
    split
    · exact List.Sublist.refl stocks
    · exact List.filter_sublist stocks

/-- filterDirection returns a sublist of its input. -/
theorem filterDirection_sublist (stocks : List Stock) (direction : JSString) :
    (filterDirection stocks direction).Sublist stocks := by
  unfold filterDirection
  split
  · exact List.Sublist.refl stocks
  · exact List.filter_sublist stocks

/-- C9: filtering only removes.  In both shipped variants, applyFilters
returns a sublist of its input: every returned stock occurs in the
input, at most as often as there, in the same relative order — nothing
is added, duplicated or reordered (the embedding is pure, so the input
list itself is untouched). -/
theorem applyFilters_only_removes (stocks : List Stock) (filters : FilterSettings) :
    (ThresholdVariant.applyFilters stocks filters).Sublist stocks
    ∧ (BoolVariant.applyFilters stocks filters).Sublist stocks := by
  constructor
  · dsimp only [ThresholdVariant.applyFilters]
    apply List.Sublist.trans
      (ite_step_sublist _ _ _ (fun x => filterDirection_sublist x filters.direction))
    apply List.Sublist.trans
      (ite_step_sublist _ (fun x => ThresholdVariant.filterNearMA x _) _
        (fun x => List.filter_sublist x))
    exact ite_step_sublist _ _ _ (fun x => searchStocks_sublist x filters.search)
  · dsimp only [BoolVariant.applyFilters]
    apply List.Sublist.trans
      (ite_step_sublist _ _ _ (fun x => filterDirection_sublist x filters.direction))
    apply List.Sublist.trans
      (ite_step_sublist _ BoolVariant.filterNearMA _ (fun x => List.filter_sublist x))
    exact ite_step_sublist _ _ _ (fun x => searchStocks_sublist x filters.search)

/-- leadsWith decides the leading-segment relation. -/
theorem leadsWith_iff (h n : JSString) : leadsWith h n = true ↔ ∃ r, h = n ++ r := by
  induction n generalizing h with
  | nil =>
    simp [leadsWith]
  | cons b bs ih =>
    cases h with
    | nil => simp [leadsWith]
    | cons a as =>
      simp only [leadsWith, Bool.and_eq_true, beq_iff_eq, ih, List.cons_append,
        List.cons.injEq]
      constructor
      · rintro ⟨hab, r, har⟩
        exact ⟨r, hab, har⟩
      · rintro ⟨r, hab, har⟩
        exact ⟨hab, r, har⟩

/-- jsIncludes decides substring containment. -/
theorem jsIncludes_iff (h n : JSString) :
    jsIncludes h n = true ↔ ∃ l r, h = l ++ n ++ r := by
  induction h with
  | nil =>
    simp only [jsIncludes, List.isEmpty_iff]
    constructor
    · intro he
      exact ⟨[], [], by simp [he]⟩
    · rintro ⟨l, r, hl⟩
      rcases List.append_eq_nil.mp (List.append_eq_nil.mp hl.symm).1 with ⟨-, hn⟩
      exact hn
  | cons a as ih =>
    simp only [jsIncludes, Bool.or_eq_true, leadsWith_iff, ih]
    constructor
    · rintro (⟨r, hr⟩ | ⟨l, r, hlr⟩)
      · exact ⟨[], r, by simp [hr]⟩
      · exact ⟨a :: l, r, by simp [hlr]⟩
    · rintro ⟨l, r, hlr⟩
      cases l with
      | nil => exact Or.inl ⟨r, by simpa using hlr⟩
      | cons x xs =>
        simp only [List.cons_append, List.cons.injEq] at hlr
        exact Or.inr ⟨xs, r, hlr.2⟩

/-- C8: searchStocks identity and case-insensitivity.  A null, empty
or whitespace-only query returns the input unchanged; any other query
keeps exactly the stocks whose symbol, compared case-insensitively,
contains the trimmed query as a substring. -/
theorem searchStocks_spec :
    (∀ stocks : List Stock, searchStocks stocks none = stocks)
    ∧ (∀ (stocks : List Stock) (q : JSString), jsTrim q = [] →
        searchStocks stocks (some q) = stocks)
    ∧ (∀ (stocks : List Stock) (q : JSString), jsTrim q ≠ [] → ∀ s : Stock,
        s ∈ searchStocks stocks (some q) ↔
          s ∈ stocks ∧ ∃ l r, jsToUpper s.symbol = l ++ jsToUpper (jsTrim q) ++ r) := by
  refine ⟨fun stocks => rfl, ?_, ?_⟩
  · intro stocks q hq
    simp [searchStocks, hq]
  · intro stocks q hq s
    simp [searchStocks, hq, List.mem_filter, jsIncludes_iff]

/-- C8 witness: a whitespace-only query leaves a concrete list
unchanged, and a lowercase query matches a concrete symbol
case-insensitively. -/
theorem searchStocks_spec_witness :
    (jsTrim " ".toList = []
      ∧ searchStocks demoPair (some " ".toList) = demoPair)
    ∧ (jsTrim "ap".toList ≠ []
      ∧ (demoAAPL ∈ searchStocks demoPair (some "ap".toList) ↔
          demoAAPL ∈ demoPair
            ∧ ∃ l r, jsToUpper demoAAPL.symbol
                = l ++ jsToUpper (jsTrim "ap".toList) ++ r)) :=
  ⟨⟨by decide, searchStocks_spec.2.1 demoPair _ (by decide)⟩,
   ⟨by decide, searchStocks_spec.2.2 demoPair _ (by decide) demoAAPL⟩⟩

/-- C5 counterexample: parseCustomTickers does not deduplicate — two
spellings of the same ticker survive as a duplicated symbol. -/
theorem parseCustomTickers_counterexample :
    parseCustomTickers "aapl, AAPL".toList = some "AAPL,AAPL".toList
    ∧ ¬ (tickerEntries "aapl, AAPL".toList).Nodup := by
  decide

/-- C5 amended: every resolved entry is the trimmed upper-cased form of
an input entry and is non-empty, every non-empty normalized entry is
kept, an empty or whitespace-only input and an input with no surviving
entry both yield null, and otherwise the joined entry list is
returned — without deduplication. -/
theorem parseCustomTickers_normalizes (input : JSString) :
    (∀ t ∈ tickerEntries input,
        t ≠ [] ∧ ∃ raw, raw ∈ splitComma input ∧ t = jsToUpper (jsTrim raw))
    ∧ (∀ raw ∈ splitComma input, jsToUpper (jsTrim raw) ≠ [] →
        jsToUpper (jsTrim raw) ∈ tickerEntries input)
    ∧ (jsTrim input = [] → parseCustomTickers input = none)
    ∧ (tickerEntries input = [] → parseCustomTickers input = none)
    ∧ (jsTrim input ≠ [] → tickerEntries input ≠ [] →
        parseCustomTickers input = some (joinComma (tickerEntries input))) := by
  refine ⟨?_, ?_, ?_, ?_, ?_⟩
  · intro t ht
    simp only [tickerEntries, List.mem_filter, List.mem_map, decide_eq_true_eq] at ht
    obtain ⟨⟨raw, hraw, rfl⟩, hlen⟩ := ht
    exact ⟨by simpa [List.length_pos] using hlen, raw, hraw, rfl⟩
  · intro raw hraw hne
    simp only [tickerEntries, List.mem_filter, List.mem_map, decide_eq_true_eq]
    exact ⟨⟨raw, hraw, rfl⟩, List.length_pos.mpr hne⟩
  · intro h
    simp [parseCustomTickers, h]
  · intro h
    simp [parseCustomTickers, h]
  · intro h1 h2
    simp [parseCustomTickers, h1, List.length_pos.mpr h2]

/-- C5 witness for the amended claim: a concrete two-ticker input is
normalized and joined. -/
theorem parseCustomTickers_normalizes_witness :
    (jsTrim "nvda, amd".toList ≠ [] ∧ tickerEntries "nvda, amd".toList ≠ [])
    ∧ parseCustomTickers "nvda, amd".toList
        = some (joinComma (tickerEntries "nvda, amd".toList)) :=
  ⟨⟨by decide, by decide⟩,
   (parseCustomTickers_normalizes _).2.2.2.2 (by decide) (by decide)⟩

/-- The loop of fetchWithRetry, characterized for every start index i
and remaining iteration count m: it makes between 1 and m attempts,
waits 1000 * 2 ^ (attempt index) between consecutive attempts, returns
the first success, and returns the last error when every allowed
attempt fails. -/
theorem retryGo_spec (fetchAt : Nat → AttemptOutcome ε α) :
    ∀ (m i : Nat), 1 ≤ m →
      (1 ≤ (retryGo fetchAt i m).attempts ∧ (retryGo fetchAt i m).attempts ≤ m)
      ∧ (retryGo fetchAt i m).delays
          = (List.range ((retryGo fetchAt i m).attempts - 1)).map
              (fun j => 1000 * 2 ^ (i + j))
      ∧ ((∀ j, j < m → (fetchAt (i + j)).isOk = false) →
          (retryGo fetchAt i m).attempts = m
          ∧ (retryGo fetchAt i m).res = some (fetchAt (i + m - 1)))
      ∧ (∀ k, k < m → (fetchAt (i + k)).isOk = true →
          (∀ j, j < k → (fetchAt (i + j)).isOk = false) →
          (retryGo fetchAt i m).attempts = k + 1
          ∧ (retryGo fetchAt i m).res = some (fetchAt (i + k))) := by
  intro m
  induction m with
  | zero => intro i h; omega
  | succ m ih =>
    intro i _
    cases hma : fetchAt i with
    | ok a =>
      have hr : retryGo fetchAt i (m + 1) = ⟨some (.ok a), 1, []⟩ := by
        simp [retryGo, hma]
      rw [hr]
      dsimp only
      refine ⟨⟨Nat.le_refl 1, by omega⟩, by simp, ?_, ?_⟩
      · intro hall
        have h0 := hall 0 (by omega)
        rw [Nat.add_zero, hma] at h0
        simp [Except.isOk, Except.toBool] at h0
      · intro k hk hok hbefore
        have hk0 : k = 0 := by
          by_contra h0
          have hb := hbefore 0 (by omega)
          rw [Nat.add_zero, hma] at hb
          simp [Except.isOk, Except.toBool] at hb
        subst hk0
        exact ⟨rfl, by rw [Nat.add_zero, hma]⟩
    | error e =>
      cases m with
      | zero =>
        have hr : retryGo fetchAt i 1 = ⟨some (.error e), 1, []⟩ := by
          simp [retryGo, hma]
        rw [hr]
        dsimp only
        refine ⟨⟨Nat.le_refl 1, Nat.le_refl 1⟩, by simp, ?_, ?_⟩
        · intro _
          refine ⟨rfl, ?_⟩
          rw [show i + 1 - 1 = i from by omega, hma]
        · intro k hk hok hbefore
          rw [show k = 0 from by omega, Nat.add_zero, hma] at hok
          simp [Except.isOk, Except.toBool] at hok
      | succ m' =>
        have hr : retryGo fetchAt i (m' + 2)
            = ⟨(retryGo fetchAt (i + 1) (m' + 1)).res,
               (retryGo fetchAt (i + 1) (m' + 1)).attempts + 1,
               (1000 * 2 ^ i) :: (retryGo fetchAt (i + 1) (m' + 1)).delays⟩ := by
          simp [retryGo, hma]
        obtain ⟨⟨ha1, ha2⟩, hd, hfail, hsucc⟩ := ih (i + 1) (by omega)
        rw [hr]
        dsimp only
        refine ⟨⟨by omega, by omega⟩, ?_, ?_, ?_⟩
        · obtain ⟨s, hs⟩ : ∃ s, (retryGo fetchAt (i + 1) (m' + 1)).attempts = s + 1 :=
            ⟨(retryGo fetchAt (i + 1) (m' + 1)).attempts - 1, by omega⟩
          rw [hs] at hd ⊢
          simp only [Nat.add_sub_cancel] at hd ⊢
          rw [hd, List.range_succ_eq_map]
          simp only [List.map_cons, List.map_map, Function.comp_apply, Nat.add_zero]
          congr 1
          apply List.map_congr_left
          intro j _
          congr 2
          omega
        · intro hall
          have hall' : ∀ j, j < m' + 1 → (fetchAt (i + 1 + j)).isOk = false := by
            intro j hj
            have h1 := hall (j + 1) (by omega)
            rwa [show i + (j + 1) = i + 1 + j from by omega] at h1
          obtain ⟨hat, hres⟩ := hfail hall'
          refine ⟨by omega, ?_⟩
          rw [hres, show i + 1 + (m' + 1) - 1 = i + (m' + 2) - 1 from by omega]
        · intro k hk hok hbefore
          cases k with
          | zero =>
            rw [Nat.add_zero, hma] at hok
            simp [Except.isOk, Except.toBool] at hok
          | succ k' =>
            have hok' : (fetchAt (i + 1 + k')).isOk = true := by
              rwa [show i + 1 + k' = i + (k' + 1) from by omega]
            have hb' : ∀ j, j < k' → (fetchAt (i + 1 + j)).isOk = false := by
              intro j hj
              have h1 := hbefore (j + 1) (by omega)
              rwa [show i + (j + 1) = i + 1 + j from by omega] at h1
            obtain ⟨hat, hres⟩ := hsucc k' (by omega) hok' hb'
            refine ⟨by omega, ?_⟩
            rw [hres, show i + 1 + k' = i + (k' + 1) from by omega]

/-- C4: bounded retry with exponential backoff.  With a retry bound of
at least one, fetchWithRetry makes at most that many attempts, waits
1000 * 2 ^ attempt milliseconds after each failed attempt but the
last, returns the body of the first successful attempt, and rethrows
the error of the final attempt only when every allowed attempt
failed. -/
theorem fetchWithRetry_bounded_backoff (fetchAt : Nat → AttemptOutcome ε α) (n : Nat)
    (hn : 1 ≤ n) :
    (fetchWithRetry fetchAt n).attempts ≤ n
    ∧ (fetchWithRetry fetchAt n).delays
        = (List.range ((fetchWithRetry fetchAt n).attempts - 1)).map
            (fun j => 1000 * 2 ^ j)
    ∧ ((∀ j, j < n → (fetchAt j).isOk = false) →
        (fetchWithRetry fetchAt n).attempts = n
        ∧ (fetchWithRetry fetchAt n).res = some (fetchAt (n - 1)))
    ∧ (∀ k, k < n → (fetchAt k).isOk = true →
        (∀ j, j < k → (fetchAt j).isOk = false) →
        (fetchWithRetry fetchAt n).attempts = k + 1
        ∧ (fetchWithRetry fetchAt n).res = some (fetchAt k)) := by
  obtain ⟨⟨h1, h2⟩, hd, hfail, hsucc⟩ := retryGo_spec fetchAt n 0 hn
  refine ⟨h2, by simpa [fetchWithRetry] using hd, ?_, ?_⟩
  · intro hall
    have h := hfail (by intro j hj; simpa using hall j hj)
    simpa [fetchWithRetry] using h
  · intro k hk hok hb
    have h := hsucc k hk (by simpa using hok) (by intro j hj; simpa using hb j hj)
    simpa [fetchWithRetry] using h

/-- A demonstration attempt sequence: the first two attempts throw,
the third succeeds with body 42. -/
def demoFetch : Nat → AttemptOutcome Nat Nat :=
  fun j => if j < 2 then .error j else .ok 42

/-- C4 witness: on the demonstration sequence with the default bound 3,
the call makes exactly three attempts and returns the success body of
the third attempt. -/
theorem fetchWithRetry_bounded_backoff_witness :
    (1 ≤ 3 ∧ 2 < 3 ∧ (demoFetch 2).isOk = true
      ∧ (∀ j, j < 2 → (demoFetch j).isOk = false))
    ∧ (fetchWithRetry demoFetch 3).attempts = 2 + 1
    ∧ (fetchWithRetry demoFetch 3).res = some (demoFetch 2) :=
  ⟨⟨by decide, by decide, by decide, by decide⟩,
   ((fetchWithRetry_bounded_backoff demoFetch 3 (by decide)).2.2.2 2 (by decide)
      (by decide) (by decide)).1,
   ((fetchWithRetry_bounded_backoff demoFetch 3 (by decide)).2.2.2 2 (by decide)
      (by decide) (by decide)).2⟩

/-- C7: insufficient-history failure.  With fewer than 150 closes,
computeMetric fails with the typed InsufficientHistory failure and
nothing else. -/
theorem computeMetric_insufficient_history (symbol : JSString) (closes : List ℚ)
    (h : closes.length < 150) :
    computeMetric symbol closes = .error .insufficientHistory := by
  rw [computeMetric, if_pos h]

/-- C7 witness: the empty price series fails with InsufficientHistory. -/
theorem computeMetric_insufficient_history_witness :
    ([] : List ℚ).length < 150
    ∧ computeMetric "A".toList [] = .error .insufficientHistory :=
  ⟨by decide, computeMetric_insufficient_history _ [] (by decide)⟩

/-- C6: internal consistency of the computed metric.  For a series of
at least 150 positive closes, computeMetric succeeds with a metric
whose distanceAbs is the absolute value of distancePercent and whose
direction is ABOVE exactly when distancePercent is non-negative (zero
counts as ABOVE). -/
theorem computeMetric_metric_consistency (symbol : JSString) (closes : List ℚ)
    (hlen : 150 ≤ closes.length) (hpos : ∀ c ∈ closes, 0 < c) :
    ∃ m, computeMetric symbol closes = .ok m
      ∧ m.distanceAbs = |m.distancePercent|
      ∧ (m.direction = .above ↔ 0 ≤ m.distancePercent) := by
  have hnot : ¬ closes.length < 150 := by omega
  set w := closes.drop (closes.length - 150) with hw
  set price := closes.getLastD 0 with hpricedef
  set ma := w.sum / 150 with hmadef
  set dp := (price - ma) / ma * 100 with hdpdef
  have hwlen : w.length = 150 := by
    rw [hw, List.length_drop]
    omega
  have hwpos : ∀ c ∈ w, 0 < c := fun c hc => hpos c (List.drop_subset _ _ hc)
  have hwne : w ≠ [] := by
    intro hnil
    rw [hnil] at hwlen
    simp at hwlen
  have hsum : 0 < w.sum := List.sum_pos w hwpos hwne
  have hma0 : 0 < ma := by
    rw [hmadef]
    exact div_pos hsum (by norm_num)
  have heq : computeMetric symbol closes
      = .ok { symbol := symbol, price := price, movingAverage150 := ma,
              distancePercent := dp, distanceAbs := |dp|,
              direction := if ma ≤ price then .above else .below } := by
    rw [computeMetric, if_neg hnot]
  refine ⟨_, heq, rfl, ?_⟩
  dsimp only
  by_cases hdir : ma ≤ price
  · rw [if_pos hdir]
    have hge : 0 ≤ dp := by
      rw [hdpdef]
      have h1 : 0 ≤ price - ma := by linarith
      exact mul_nonneg (div_nonneg h1 hma0.le) (by norm_num)
    exact ⟨fun _ => hge, fun _ => rfl⟩
  · rw [if_neg hdir]
    have hlt : dp < 0 := by
      rw [hdpdef]
      have h1 : price - ma < 0 := by linarith
      exact mul_neg_of_neg_of_pos (div_neg_of_neg_of_pos h1 hma0) (by norm_num)
    constructor
    · intro hcontra
      exact Direction.noConfusion hcontra
    · intro hge
      linarith

/-- The scenario series of the specification: 149 closes at 100
followed by a final close at 110. -/
def demoSeries : List ℚ := List.replicate 149 100 ++ [110]

set_option maxRecDepth 4000 in
/-- C6 witness: the metric of the scenario series is internally
consistent. -/
theorem computeMetric_metric_consistency_witness :
    (150 ≤ demoSeries.length ∧ ∀ c ∈ demoSeries, 0 < c)
    ∧ ∃ m, computeMetric "SPY".toList demoSeries = .ok m
        ∧ m.distanceAbs = |m.distancePercent|
        ∧ (m.direction = .above ↔ 0 ≤ m.distancePercent) :=
  ⟨⟨by simp [demoSeries], by decide⟩,
   computeMetric_metric_consistency _ demoSeries (by simp [demoSeries]) (by decide)⟩

/-- C10: boundary totalization of the fetched record.  On any non-ok
response fetchStocks throws the HTTP status; on an ok response it
returns a record in which every missing field has been replaced by its
default — empty stock list, empty metadata, zero counts and times,
null timestamp — and present fields are passed through. -/
theorem fetchStocks_totalizes (resp : StoreResponse) :
    (resp.ok = false → fetchStocks resp = .error resp.status)
    ∧ (resp.ok = true → ∃ r, fetchStocks resp = .ok r
        ∧ r.cache_hit = true
        ∧ (resp.record.stocks = none → r.stocks = [])
        ∧ (∀ l, resp.record.stocks = some l → r.stocks = l)
        ∧ (resp.record.metadata = none →
            r.metadata = emptyMetadata ∧ r.total_count = 0
              ∧ r.processing_time = 0 ∧ r.last_updated = none)
        ∧ (∀ md, resp.record.metadata = some md →
            r.metadata = md
              ∧ (md.total_count = none → r.total_count = 0)
              ∧ (md.processing_time = none → r.processing_time = 0)
              ∧ (md.last_updated = none → r.last_updated = none))) := by
  constructor
  · intro h
    rw [fetchStocks, if_pos h]
  · intro h
    have hcond : ¬ (resp.ok = false) := by simp [h]
    refine ⟨_, by rw [fetchStocks, if_neg hcond], rfl, ?_, ?_, ?_, ?_⟩
    · intro hs
      simp [hs]
    · intro l hl
      simp [hl]
    · intro hmd
      refine ⟨by simp [hmd], by simp [hmd], by simp [hmd], by simp [hmd, strOrNull]⟩
    · intro md hmd
      refine ⟨by simp [hmd], ?_, ?_, ?_⟩
      · intro hnone
        simp [hmd, hnone]
      · intro hnone
        simp [hmd, hnone]
      · intro hnone
        simp [hmd, hnone, strOrNull]

/-- A demonstration ok response whose record has no fields set. -/
def demoResp : StoreResponse :=
  { ok := true, status := 200, record := { stocks := none, metadata := none } }

/-- C10 witness: the defaults on a concrete ok response with an empty
record. -/
theorem fetchStocks_totalizes_witness :
    demoResp.ok = true
    ∧ ∃ r, fetchStocks demoResp = .ok r
        ∧ r.cache_hit = true
        ∧ (demoResp.record.stocks = none → r.stocks = [])
        ∧ (∀ l, demoResp.record.stocks = some l → r.stocks = l)
        ∧ (demoResp.record.metadata = none →
            r.metadata = emptyMetadata ∧ r.total_count = 0
              ∧ r.processing_time = 0 ∧ r.last_updated = none)
        ∧ (∀ md, demoResp.record.metadata = some md →
            r.metadata = md
              ∧ (md.total_count = none → r.total_count = 0)
              ∧ (md.processing_time = none → r.processing_time = 0)
              ∧ (md.last_updated = none → r.last_updated = none)) :=
  ⟨rfl, (fetchStocks_totalizes demoResp).2 rfl⟩
